import Mathlib

/-!
Shallow embedding of `src/ui/widget/chat_box.rs` (sechat-rs transcript
layout engine): the `ChatBox` state, the row rebuild `update_messages`,
the selection transitions and the width computation, together with a
model of the text wrapper used from the `textwrap` crate.

Machine-integer conventions: `usize`/`u16` values are `Nat`s;
`saturating_sub` on an unsigned integer is Lean's truncated `Nat`
subtraction; a plain unsigned subtraction that would underflow is an
arithmetic-overflow fault (a panic when Rust's overflow checks are on),
modelled by an `Option` result with `none` for the fault.  A `try_into`
followed by `expect` is likewise `none` on an out-of-range value.
-/

def NAME_WIDTH : Nat := 20

def TIME_WIDTH : Nat := 5

/-- `u16::MAX`, the largest representable row height. -/
def U16_MAX : Nat := 65535

/-- Rust's `str::split('\x6e-ish newline')` accumulator: splits a character
list at each newline, keeping empty segments (`""` splits to `[""]`,
a trailing newline yields a trailing empty segment). -/
def splitNlAux : List Char → List Char → List (List Char)
  | acc, [] => [acc.reverse]
  | acc, c :: cs =>
    if c = '\n' then acc.reverse :: splitNlAux [] cs else splitNlAux (c :: acc) cs

/-- The segments of a string between newline characters, as in
`message.split('\n')` in `update_messages`. -/
def splitNl (s : String) : List (List Char) :=
  splitNlAux [] s.data

/-- Modelled from the spec: the Text Wrapper's word splitting (§4.1) — the
`textwrap` crate is an external dependency, so the wrapper is modelled from
the spec's contract.  Splits a character list into its maximal space-free
words, discarding the separating spaces. -/
def splitSpacesAux : List Char → List Char → List (List Char)
  | acc, [] => if acc = [] then [] else [acc.reverse]
  | acc, c :: cs =>
    if c = ' ' then
      if acc = [] then splitSpacesAux [] cs else acc.reverse :: splitSpacesAux [] cs
    else splitSpacesAux (c :: acc) cs

/-- Modelled from the spec: hard-breaking of a single over-long token (§4.1).
Cuts a word into pieces of at most `max w 1` characters; the fuel argument
(instantiated with the word's length) only serves termination. -/
def chunkAux (w : Nat) : Nat → List Char → List (List Char)
  | _, [] => []
  | 0, _ => []
  | fuel + 1, cs => cs.take (max w 1) :: chunkAux w fuel (cs.drop (max w 1))

/-- Hard-break every word of a list to width `w`. -/
def hardBreakWords (w : Nat) (words : List (List Char)) : List (List Char) :=
  words.flatMap fun word => chunkAux w word.length word

/-- Modelled from the spec: greedy line filling (§4.1).  `cur` is the line
under construction (already nonempty by construction); a word joins the
current line when it still fits behind a single separating space, else it
starts the next line. -/
def greedyAux (w : Nat) : List Char → List (List Char) → List (List Char)
  | cur, [] => [cur]
  | cur, word :: rest =>
    if cur.length + 1 + word.length ≤ w then greedyAux w (cur ++ ' ' :: word) rest
    else cur :: greedyAux w word rest

/-- Modelled from the spec: the Text Wrapper (§4.1), standing for
`textwrap::wrap(s, w)` with `break_words(true)`: split on whitespace,
hard-break tokens wider than the column, fill lines greedily; an input
with no words (in particular the empty string) produces one empty line. -/
def wrap (s : String) (w : Nat) : List String :=
  match hardBreakWords w (splitSpacesAux [] s.data) with
  | [] => [String.mk []]
  | word :: rest => (greedyAux w word rest).map String.mk

/-- The body-cell lines of a message: `get_message().split('\n')` followed by
`flat_map(|cell| textwrap::wrap(cell, self.width))`, lines 116–126. -/
def wrapBody (s : String) (w : Nat) : List String :=
  (splitNl s).flatMap fun seg => wrap (String.mk seg) w

/-- The name-cell lines: `textwrap::wrap(name, Options::new(NAME_WIDTH).break_words(true))`. -/
def wrapName (s : String) : List String :=
  wrap s NAME_WIDTH

/-- A chat message as seen through the `NCMessage` accessors used by
`update_messages`.  `dateStr` stands for `get_date_str(&self.date_format)`
for the box's (fixed) date format, `timeStr` for `get_time_str()`. -/
structure NCMessage where
  id : Int
  isReaction : Bool
  isEditNote : Bool
  isCommentDeleted : Bool
  dateStr : String
  timeStr : String
  actorId : String
  name : String
  message : String
  hasReactions : Bool
  reactionsStr : String
deriving DecidableEq, Repr

/-- The room view used by `update_messages`: `get_messages().values()` in
ascending key order, `has_unread()` and `get_last_read()`. -/
structure NCRoom where
  messages : List NCMessage
  hasUnread : Bool
  lastRead : Int
deriving DecidableEq, Repr

/-- One renderable row pushed into `self.messages`.  A `dateSeparator`
carries the raw date label and whether it equals today's label (the code
then renders `"Today! " ++ label`); a `messageRow` carries the time cell,
the wrapped name lines, the wrapped body lines and the computed height. -/
inductive ChatRow where
  | dateSeparator (label : String) (today : Bool)
  | messageRow (time : String) (nameLines : List String) (bodyLines : List String) (height : Nat)
  | reactionRow (summary : String)
  | unreadMarker
deriving DecidableEq, Repr

/-- The `ChatBox` state: the built rows, the selection index, the usable
body width, and the `TableState` selection (`none` = no selection, the
empty sentinel).  Style and date-format fields are fixed configuration
carried outside the model (the format-dependent strings are passed to
`update_messages` explicitly). -/
structure ChatBox where
  messages : List ChatRow
  current_index : Nat
  width : Nat
  selected : Option Nat
deriving DecidableEq, Repr

/-- `#[derive(Default)]` for `ChatBox`: empty rows, index 0, width 0, and
`TableState::default()` whose selection is `None`. -/
def ChatBox.default : ChatBox :=
  { messages := [], current_index := 0, width := 0, selected := none }

/-- `ChatBox::new`: width starts at 10 and the table state at `Some(0)`. -/
def ChatBox.new : ChatBox :=
  { messages := [], current_index := 0, width := 10, selected := some 0 }

/-- The messages kept by the filter on lines 70–75:
`!is_reaction() && !is_edit_note() && !is_comment_deleted()`. -/
def keptMessages (room : NCRoom) : List NCMessage :=
  room.messages.filter fun m => !m.isReaction && !m.isEditNote && !m.isCommentDeleted

/-- The row height of lines 128–132 before the `u16` conversion:
`max(message_string.len(), name.len())` written as the source's comparison. -/
def rowHeightNat (w : Nat) (m : NCMessage) : Nat :=
  let name := wrapName m.name
  let body := wrapBody m.message w
  if body.length > name.length then body.length else name.length

/-- The loop body of `update_messages` (lines 70–159), threading
`last_date`.  `todayStr` stands for `Local::now().format(&date_format)`.
The result is `none` when some row height exceeds `u16::MAX`, where the
source's `try_into().expect("message too long")` aborts. -/
def update_messages_loop (w : Nat) (todayStr : String) (hasUnread : Bool) (lastRead : Int) :
    String → List NCMessage → Option (List ChatRow)
  | _, [] => some []
  | lastDate, m :: rest =>
    let sep : List ChatRow :=
      if m.dateStr ≠ lastDate then [ChatRow.dateSeparator m.dateStr (m.dateStr == todayStr)] else []
    let lastDate' := if m.dateStr ≠ lastDate then m.dateStr else lastDate
    let name := wrapName m.name
    let body := wrapBody m.message w
    let height := if body.length > name.length then body.length else name.length
    if height ≤ U16_MAX then
      match update_messages_loop w todayStr hasUnread lastRead lastDate' rest with
      | none => none
      | some tail =>
        some (sep ++ ChatRow.messageRow m.timeStr name body height ::
          ((if m.hasReactions then [ChatRow.reactionRow m.reactionsStr] else []) ++
           (if hasUnread && (lastRead == m.id) then [ChatRow.unreadMarker] else []) ++ tail))
    else none

/-- `update_messages` (lines 62–160): clears `self.messages` and rebuilds
it from the filtered room messages.  `sentinel` stands for the initial
`last_date`, `DateTime::<Utc>::MIN_UTC.format(&date_format)`.  `none`
models the abort on row-height overflow. -/
def update_messages (cb : ChatBox) (room : NCRoom) (todayStr sentinel : String) : Option ChatBox :=
  match update_messages_loop cb.width todayStr room.hasUnread room.lastRead sentinel
      (keptMessages room) with
  | none => none
  | some rows => some { cb with messages := rows }

/-- Rust's `clamp(lo, hi)` on unsigned integers (total here since `lo = 0 ≤ hi`
at every use site). -/
def rustClamp (x lo hi : Nat) : Nat :=
  min (max x lo) hi

/-- `select_last_message` (lines 162–166): `current_index =
messages.len().saturating_sub(1)` and `state.select(Some(current_index))`. -/
def select_last_message (cb : ChatBox) : ChatBox :=
  let idx := cb.messages.length - 1
  { cb with current_index := idx, selected := some idx }

/-- `select_up` (lines 172–178): `current_index.saturating_sub(1).clamp(0,
messages.len() - 1)`.  With no rows, `messages.len() - 1` is `0usize - 1`,
an arithmetic underflow (panic with overflow checks on): `none`. -/
def select_up (cb : ChatBox) : Option ChatBox :=
  match cb.messages.length with
  | 0 => none
  | n + 1 =>
    let idx := rustClamp (cb.current_index - 1) 0 n
    some { cb with current_index := idx, selected := some idx }

/-- `select_down` (lines 180–186): `current_index.saturating_add(1).clamp(0,
messages.len() - 1)`; same underflow as `select_up` on zero rows. -/
def select_down (cb : ChatBox) : Option ChatBox :=
  match cb.messages.length with
  | 0 => none
  | n + 1 =>
    let idx := rustClamp (cb.current_index + 1) 0 n
    some { cb with current_index := idx, selected := some idx }

/-- Checked unsigned subtraction: `none` is the underflow fault. -/
def checkedSub (a b : Nat) : Option Nat :=
  if b ≤ a then some (a - b) else none

/-- `set_width_and_update_if_change` (lines 49–60): `(width - TIME_WIDTH -
2 - NAME_WIDTH).max(10)` in `u16`, each subtraction checked, then a rebuild
when the usable width changed. -/
def set_width_and_update_if_change (cb : ChatBox) (width : Nat) (room : NCRoom)
    (todayStr sentinel : String) : Option ChatBox :=
  match checkedSub width TIME_WIDTH with
  | none => none
  | some a =>
    match checkedSub a 2 with
    | none => none
    | some b =>
      match checkedSub b NAME_WIDTH with
      | none => none
      | some c =>
        let new_width := max c 10
        if cb.width ≠ new_width then
          update_messages { cb with width := new_width } room todayStr sentinel
        else some cb

/-- Recognizer for the unread-marker row. -/
def isUnreadMarkerB : ChatRow → Bool
  | ChatRow.unreadMarker => true
  | _ => false

/-- The date label of a separator row, `none` for every other row. -/
def sepLabel : ChatRow → Option String
  | ChatRow.dateSeparator lbl _ => some lbl
  | _ => none

/-- The date labels of the separator rows, in order. -/
def sepLabels (rows : List ChatRow) : List String :=
  rows.filterMap sepLabel

/-- The rows one filtered message contributes to the rebuilt sequence:
an optional date separator (`flag`), the message row, an optional reaction
row, and an optional unread marker — the push order of lines 76–158. -/
def messageBlock (w : Nat) (todayStr : String) (hasUnread : Bool) (lastRead : Int)
    (flag : Bool) (m : NCMessage) : List ChatRow :=
  (if flag then [ChatRow.dateSeparator m.dateStr (m.dateStr == todayStr)] else [])
  ++ ChatRow.messageRow m.timeStr (wrapName m.name) (wrapBody m.message w) (rowHeightNat w m)
  :: ((if m.hasReactions then [ChatRow.reactionRow m.reactionsStr] else [])
      ++ (if hasUnread && (lastRead == m.id) then [ChatRow.unreadMarker] else []))

/-- Pairwise-local separator discipline: a message is flagged for a date
separator exactly when its date label differs from the previous message's
label (`prev = none` for the first message, which is always flagged). -/
def sepFlags : Option String → List NCMessage → List (Bool × NCMessage)
  | _, [] => []
  | prev, m :: rest => (decide (prev ≠ some m.dateStr), m) :: sepFlags (some m.dateStr) rest

/-- State-free specification of the rebuilt row sequence: the concatenated
blocks of the messages under the pairwise separator discipline. -/
def specRows (w : Nat) (todayStr : String) (hasUnread : Bool) (lastRead : Int)
    (prev : Option String) (msgs : List NCMessage) : List ChatRow :=
  ((sepFlags prev msgs).map fun p => messageBlock w todayStr hasUnread lastRead p.1 p.2).flatten

/-- Checks that every date separator is immediately followed by a message
row (so a separator immediately precedes the message that opens its date
run, and no separator dangles at the end). -/
def sepsPrecedeMessages : List ChatRow → Bool
  | [] => true
  | ChatRow.dateSeparator _ _ :: rest =>
    match rest with
    | ChatRow.messageRow _ _ _ _ :: _ => sepsPrecedeMessages rest
    | _ => false
  | _ :: rest => sepsPrecedeMessages rest

/-! Concrete fixtures used by counterexamples and witnesses. -/

/-- A plain kept (comment) message. -/
def msgHi : NCMessage :=
  { id := 0, isReaction := false, isEditNote := false, isCommentDeleted := false,
    dateStr := "d", timeStr := "12:00", actorId := "a", name := "Bob", message := "hi",
    hasReactions := false, reactionsStr := "" }

/-- A reaction message (filtered out by the rebuild). -/
def msgReact : NCMessage :=
  { msgHi with id := 7, isReaction := true }

/-- A room with one kept message and no unread flag. -/
def roomHi : NCRoom :=
  { messages := [msgHi], hasUnread := false, lastRead := 0 }

/-- A room whose unread flag is set but whose last-read id matches no kept
message. -/
def roomMiss : NCRoom :=
  { messages := [msgHi], hasUnread := true, lastRead := 5 }

/-- A room whose unread flag is set and whose last-read id is the kept
message's id. -/
def roomHit : NCRoom :=
  { messages := [msgHi], hasUnread := true, lastRead := 0 }

/-- A box with the usable width 10 and no rows yet. -/
def boxW10 : ChatBox :=
  { ChatBox.default with width := 10 }

/-- A box holding three rows with the last one selected. -/
def box3rows : ChatBox :=
  { messages := [ChatRow.reactionRow "", ChatRow.reactionRow "", ChatRow.reactionRow ""],
    current_index := 2, width := 10, selected := some 2 }

/-- The box `update_messages boxW10 roomHit "t" "s"` produces. -/
def cbHit : ChatBox :=
  { boxW10 with
    messages := [ChatRow.dateSeparator "d" false,
      ChatRow.messageRow "12:00" ["Bob"] ["hi"] 1, ChatRow.unreadMarker] }

/-- A kept message whose body is 65536 newline characters, so its body
wraps to 65537 lines — more than `u16::MAX`. -/
def bigMsg : NCMessage :=
  { msgHi with message := String.mk (List.replicate 65536 '\n') }

/-- A room holding only `bigMsg`. -/
def roomBig : NCRoom :=
  { messages := [bigMsg], hasUnread := false, lastRead := 0 }

/-! ## Helper lemmas -/

/-- Unfolding `update_messages` on a successful rebuild: the rows come from
the loop and every other field is kept. -/
theorem update_messages_some (cb : ChatBox) (room : NCRoom) (todayStr sentinel : String)
    (cb1 : ChatBox) (h : update_messages cb room todayStr sentinel = some cb1) :
    update_messages_loop cb.width todayStr room.hasUnread room.lastRead sentinel
        (keptMessages room) = some cb1.messages
      ∧ cb1.current_index = cb.current_index ∧ cb1.width = cb.width
      ∧ cb1.selected = cb.selected := by
  unfold update_messages at h
  cases hl : update_messages_loop cb.width todayStr room.hasUnread room.lastRead sentinel
      (keptMessages room) with
  | none => rw [hl] at h; exact absurd h (by simp)
  | some rows =>
    rw [hl] at h
    cases h
    exact ⟨rfl, rfl, rfl, rfl⟩

/-! ## Claim theorems -/

/-- C1: the claim says select-up, select-down and select-last on an empty
row sequence are no-ops that never fault.  In the code, `select_up` and
`select_down` evaluate `self.messages.len() - 1 = 0usize - 1`, an
arithmetic underflow (a panic under Rust's overflow checks); only
`select_last_message` saturates.  This theorem evaluates the model at the
failing input: the default (empty) box. -/
theorem select_empty_faults :
    select_up ChatBox.default = none ∧ select_down ChatBox.default = none
      ∧ select_last_message ChatBox.default
        = { ChatBox.default with current_index := 0, selected := some 0 } :=
  ⟨rfl, rfl, rfl⟩

/-- C3: the claim says any total width yields body width
`max(total - 27, 10)` without fault, in particular width 10 for totals
below 27.  In the code the `u16` expression `width - 5 - 2 - 20`
underflows for totals below 27 (panic under overflow checks; wrap-around
to 65535, not 10, otherwise).  Evaluated at the failing input 26. -/
theorem set_width_26_faults :
    set_width_and_update_if_change ChatBox.default 26 roomHi "t" "s" = none := by
  decide

/-- C9 counterexample: on zero rows, `select_last_message` does not move to
an empty sentinel — it saturates `len - 1` to 0 and records `Some 0`
(starting from the default box, whose table selection is the sentinel). -/
theorem select_last_empty_not_sentinel :
    (select_last_message ChatBox.default).selected = some 0
      ∧ (select_last_message ChatBox.default).current_index = 0
      ∧ ChatBox.default.messages.length = 0
      ∧ (select_last_message ChatBox.default).selected ≠ none := by
  refine ⟨rfl, rfl, rfl, ?_⟩
  decide

/-- C9 amended: `select_last_message` always sets the index to
`len.saturating_sub(1)` (hence `N - 1` for `N > 0` and `0` for `N = 0`)
and records it in the table state as `Some`, leaving the rows unchanged;
it never produces the empty sentinel. -/
theorem select_last_spec (cb : ChatBox) :
    (select_last_message cb).current_index = cb.messages.length - 1
      ∧ (select_last_message cb).selected = some (cb.messages.length - 1)
      ∧ (select_last_message cb).messages = cb.messages :=
  ⟨rfl, rfl, rfl⟩

/-- C4 counterexample: a rebuild does not reposition the selection.  A box
with three rows and index 2 rebuilt over a one-message room ends with two
rows and index 2, outside `[0, 1]` although the sequence is non-empty. -/
theorem rebuild_leaves_index_out_of_range :
    (update_messages box3rows roomHi "t" "s").map
        (fun c => (c.current_index, c.messages.length)) = some (2, 2)
      ∧ ¬ (2 < 2) := by
  exact ⟨by decide, by decide⟩

/-- C4 amended: on a non-empty row sequence every selection transition
leaves (indeed puts) the index inside `[0, len-1]`, whatever it was
before; a rebuild keeps the index unchanged, so it can fall outside the
range when the row count shrinks, until the next selection call. -/
theorem selection_bounds (cb : ChatBox) (h : cb.messages ≠ []) :
    (select_last_message cb).current_index < (select_last_message cb).messages.length
      ∧ (∀ cb1, select_up cb = some cb1 →
          cb1.current_index < cb1.messages.length ∧ cb1.messages = cb.messages)
      ∧ (∀ cb1, select_down cb = some cb1 →
          cb1.current_index < cb1.messages.length ∧ cb1.messages = cb.messages)
      ∧ (∀ room todayStr sentinel cb1, update_messages cb room todayStr sentinel = some cb1 →
          cb1.current_index = cb.current_index) := by
  have hpos : 0 < cb.messages.length := List.length_pos.mpr h
  refine ⟨?_, ?_, ?_, ?_⟩
  · show cb.messages.length - 1 < cb.messages.length
    omega
  · intro cb1 h1
    unfold select_up at h1
    cases hlen : cb.messages.length with
    | zero => omega
    | succ n =>
      rw [hlen] at h1
      cases h1
      refine ⟨?_, rfl⟩
      show rustClamp (cb.current_index - 1) 0 n < cb.messages.length
      have : rustClamp (cb.current_index - 1) 0 n ≤ n := min_le_right _ _
      omega
  · intro cb1 h1
    unfold select_down at h1
    cases hlen : cb.messages.length with
    | zero => omega
    | succ n =>
      rw [hlen] at h1
      cases h1
      refine ⟨?_, rfl⟩
      show rustClamp (cb.current_index + 1) 0 n < cb.messages.length
      have : rustClamp (cb.current_index + 1) 0 n ≤ n := min_le_right _ _
      omega
  · intro room todayStr sentinel cb1 h1
    exact (update_messages_some cb room todayStr sentinel cb1 h1).2.1

/-- Witness for the C4 amended theorem at the concrete box `cbHit`. -/
theorem selection_bounds_witness :
    (select_last_message cbHit).current_index < (select_last_message cbHit).messages.length :=
  (selection_bounds cbHit (by decide)).1

/-- C7: the rebuilt row sequence is a pure function of the room data, the
usable width and the two format-derived instants; it does not depend on
the rows or selection present before the call (the code clears
`self.messages` first). -/
theorem rebuild_deterministic (cb1 cb2 : ChatBox) (room : NCRoom)
    (todayStr sentinel : String) (h : cb1.width = cb2.width) :
    (update_messages cb1 room todayStr sentinel).map (fun c => c.messages)
      = (update_messages cb2 room todayStr sentinel).map (fun c => c.messages) := by
  unfold update_messages
  rw [h]
  cases update_messages_loop cb2.width todayStr room.hasUnread room.lastRead sentinel
      (keptMessages room) <;> simp

/-- Witness for C7: two boxes sharing width 10 but differing in rows and
selection rebuild to the same row sequence. -/
theorem rebuild_deterministic_witness :
    (update_messages boxW10 roomHi "t" "s").map (fun c => c.messages)
      = (update_messages cbHit roomHi "t" "s").map (fun c => c.messages) :=
  rebuild_deterministic boxW10 cbHit roomHi "t" "s" rfl

/-- C8: a message whose is-reaction, is-edit-note or is-comment-deleted
flag holds contributes nothing to the rebuild — removing it from the room
leaves the result unchanged (so no message row, separator, reaction row or
unread marker is emitted on its behalf). -/
theorem filtered_message_no_rows (cb : ChatBox) (pre post : List NCMessage) (m : NCMessage)
    (hasU : Bool) (lr : Int) (todayStr sentinel : String)
    (h : m.isReaction = true ∨ m.isEditNote = true ∨ m.isCommentDeleted = true) :
    update_messages cb { messages := pre ++ m :: post, hasUnread := hasU, lastRead := lr }
        todayStr sentinel
      = update_messages cb { messages := pre ++ post, hasUnread := hasU, lastRead := lr }
        todayStr sentinel := by
  have hk : keptMessages { messages := pre ++ m :: post, hasUnread := hasU, lastRead := lr }
      = keptMessages { messages := pre ++ post, hasUnread := hasU, lastRead := lr } := by
    unfold keptMessages
    simp only [List.filter_append, List.filter_cons]
    rcases h with h | h | h <;> simp [h]
  unfold update_messages
  rw [hk]

/-- Witness for C8: dropping the reaction message `msgReact` from a
two-message room leaves the rebuild unchanged. -/
theorem filtered_message_no_rows_witness :
    update_messages boxW10 { messages := [msgHi, msgReact], hasUnread := false, lastRead := 0 }
        "t" "s"
      = update_messages boxW10 { messages := [msgHi], hasUnread := false, lastRead := 0 }
        "t" "s" :=
  filtered_message_no_rows boxW10 [msgHi] [] msgReact false 0 "t" "s" (Or.inl rfl)

theorem splitNlAux_no_newline (cs : List Char) : ∀ acc, '\n' ∉ acc →
    ∀ seg ∈ splitNlAux acc cs, '\n' ∉ seg := by
  induction cs with
  | nil =>
    intro acc hacc seg hseg
    simp [splitNlAux] at hseg
    subst hseg
    simpa using hacc
  | cons c cs ih =>
    intro acc hacc seg hseg
    by_cases hc : c = '\n'
    · simp [splitNlAux, hc] at hseg
      rcases hseg with h | h
      · subst h; simpa using hacc
      · exact ih [] (by simp) seg h
    · simp [splitNlAux, hc] at hseg
      exact ih (c :: acc) (by simp [hacc, Ne.symm hc]) seg hseg

theorem splitSpacesAux_chars (cs : List Char) : ∀ acc word, word ∈ splitSpacesAux acc cs →
    ∀ ch ∈ word, ch ∈ acc ∨ ch ∈ cs := by
  induction cs with
  | nil =>
    intro acc word hw ch hch
    by_cases h : acc = []
    · simp [splitSpacesAux, h] at hw
    · simp [splitSpacesAux, h] at hw
      subst hw
      left
      simpa using hch
  | cons c cs ih =>
    intro acc word hw ch hch
    by_cases hsp : c = ' '
    · by_cases hacc : acc = []
      · simp [splitSpacesAux, hsp, hacc] at hw
        rcases ih [] word hw ch hch with h | h
        · simp at h
        · exact Or.inr (List.mem_cons_of_mem _ h)
      · simp [splitSpacesAux, hsp, hacc] at hw
        rcases hw with h | h
        · subst h; left; simpa using hch
        · rcases ih [] word h ch hch with h' | h'
          · simp at h'
          · exact Or.inr (List.mem_cons_of_mem _ h')
    · simp [splitSpacesAux, hsp] at hw
      rcases ih (c :: acc) word hw ch hch with h | h
      · rcases List.mem_cons.mp h with h' | h'
        · exact Or.inr (h' ▸ List.mem_cons_self _ _)
        · exact Or.inl h'
      · exact Or.inr (List.mem_cons_of_mem _ h)

theorem chunkAux_chars (w : Nat) : ∀ fuel cs piece, piece ∈ chunkAux w fuel cs →
    ∀ ch ∈ piece, ch ∈ cs := by
  intro fuel
  induction fuel with
  | zero =>
    intro cs piece hp
    cases cs <;> simp [chunkAux] at hp
  | succ fuel ih =>
    intro cs piece hp ch hch
    cases cs with
    | nil => simp [chunkAux] at hp
    | cons c cs' =>
      simp only [chunkAux] at hp
      rcases List.mem_cons.mp hp with h | h
      · subst h
        exact List.take_subset _ _ hch
      · exact List.drop_subset _ _ (ih _ piece h ch hch)

theorem greedyAux_chars (w : Nat) : ∀ words cur line, line ∈ greedyAux w cur words →
    ∀ ch ∈ line, ch ∈ cur ∨ ch = ' ' ∨ ∃ word ∈ words, ch ∈ word := by
  intro words
  induction words with
  | nil =>
    intro cur line hl ch hch
    simp [greedyAux] at hl
    subst hl
    exact Or.inl hch
  | cons word rest ih =>
    intro cur line hl ch hch
    by_cases hfit : cur.length + 1 + word.length ≤ w
    · simp only [greedyAux, if_pos hfit] at hl
      rcases ih _ line hl ch hch with h | h | ⟨v, hv, hcv⟩
      · rcases List.mem_append.mp h with h' | h'
        · exact Or.inl h'
        · rcases List.mem_cons.mp h' with h'' | h''
          · exact Or.inr (Or.inl h'')
          · exact Or.inr (Or.inr ⟨word, List.mem_cons_self _ _, h''⟩)
      · exact Or.inr (Or.inl h)
      · exact Or.inr (Or.inr ⟨v, List.mem_cons_of_mem _ hv, hcv⟩)
    · simp only [greedyAux, if_neg hfit] at hl
      rcases List.mem_cons.mp hl with h | h
      · subst h
        exact Or.inl hch
      · rcases ih _ line h ch hch with h' | h' | ⟨v, hv, hcv⟩
        · exact Or.inr (Or.inr ⟨word, List.mem_cons_self _ _, h'⟩)
        · exact Or.inr (Or.inl h')
        · exact Or.inr (Or.inr ⟨v, List.mem_cons_of_mem _ hv, hcv⟩)

theorem hardBreakWords_chars (w : Nat) (words : List (List Char)) (piece : List Char)
    (hp : piece ∈ hardBreakWords w words) : ∀ ch ∈ piece, ∃ word ∈ words, ch ∈ word := by
  intro ch hch
  rcases List.mem_flatMap.mp hp with ⟨word, hw, hpw⟩
  exact ⟨word, hw, chunkAux_chars w word.length word piece hpw ch hch⟩

theorem wrap_chars (s : String) (w : Nat) (line : String) (hl : line ∈ wrap s w) :
    ∀ ch ∈ line.data, ch ∈ s.data ∨ ch = ' ' := by
  intro ch hch
  unfold wrap at hl
  cases hb : hardBreakWords w (splitSpacesAux [] s.data) with
  | nil =>
    rw [hb] at hl
    simp at hl
    subst hl
    simp at hch
  | cons word rest =>
    rw [hb] at hl
    rcases List.mem_map.mp hl with ⟨cs, hcs, hline⟩
    have hch' : ch ∈ cs := by
      rw [← hline] at hch
      exact hch
    have fromWords : ∀ v, v ∈ (word :: rest) → ch ∈ v → ch ∈ s.data ∨ ch = ' ' := by
      intro v hv hchv
      rcases hardBreakWords_chars w _ v (hb ▸ hv) ch hchv with ⟨wd, hwd, hchwd⟩
      rcases splitSpacesAux_chars s.data [] wd hwd ch hchwd with h' | h'
      · simp at h'
      · exact Or.inl h'
    rcases greedyAux_chars w rest word cs hcs ch hch' with h | h | ⟨v, hv, hcv⟩
    · exact fromWords word (List.mem_cons_self _ _) h
    · exact Or.inr h
    · exact fromWords v (List.mem_cons_of_mem _ hv) hcv

/-- C10: the body lines of a message are the newline-split segments each
wrapped independently at the body width, concatenated in order; no emitted
body line contains a newline, and the empty body still yields one empty
line.  (The wrapper itself is modelled from the spec, §4.1.) -/
theorem body_lines_structure (s : String) (w : Nat) :
    wrapBody s w = (splitNl s).flatMap (fun seg => wrap (String.mk seg) w)
      ∧ (∀ line ∈ wrapBody s w, '\n' ∉ line.data)
      ∧ wrapBody "" w = [String.mk []] := by
  refine ⟨rfl, ?_, rfl⟩
  intro line hl hnl
  rcases List.mem_flatMap.mp hl with ⟨seg, hseg, hline⟩
  rcases wrap_chars (String.mk seg) w line hline '\n' hnl with h | h
  · exact splitNlAux_no_newline s.data [] (by simp) seg hseg h
  · exact absurd h (by decide)

/-- The newline splitter turns `n` newlines into `n + 1` empty segments. -/
theorem splitNlAux_replicate (n : Nat) :
    splitNlAux [] (List.replicate n '\n') = List.replicate (n + 1) [] := by
  induction n with
  | zero => rfl
  | succ n ih =>
    rw [List.replicate_succ]
    simp [splitNlAux, ih, List.replicate_succ]

/-- Wrapping `k` empty segments yields `k` (empty) lines. -/
theorem flatMap_empty_segs (w : Nat) : ∀ k,
    ((List.replicate k ([] : List Char)).flatMap (fun seg => wrap (String.mk seg) w)).length
      = k := by
  intro k
  induction k with
  | zero => rfl
  | succ k ih =>
    rw [List.replicate_succ, List.flatMap_cons, List.length_append, ih]
    have h1 : (wrap (String.mk []) w).length = 1 := rfl
    omega

/-- A body of `n` newline characters wraps to `n + 1` body lines. -/
theorem wrapBody_newlines_length (n w : Nat) :
    (wrapBody (String.mk (List.replicate n '\n')) w).length = n + 1 := by
  unfold wrapBody splitNl
  have hd : (String.mk (List.replicate n '\n')).data = List.replicate n '\n' := rfl
  rw [hd, splitNlAux_replicate, flatMap_empty_segs]

/-- When the first kept message's body wraps to more than `u16::MAX` lines,
the rebuild hits the `try_into().expect("message too long")` abort. -/
theorem update_messages_overflow (cb : ChatBox) (room : NCRoom) (todayStr sentinel : String)
    (m : NCMessage) (rest : List NCMessage) (hk : keptMessages room = m :: rest)
    (hb : U16_MAX < (wrapBody m.message cb.width).length) :
    update_messages cb room todayStr sentinel = none := by
  unfold update_messages
  rw [hk]
  simp only [update_messages_loop]
  have hh : ¬ ((if (wrapBody m.message cb.width).length > (wrapName m.name).length
      then (wrapBody m.message cb.width).length else (wrapName m.name).length) ≤ U16_MAX) := by
    split <;> omega
  rw [if_neg hh]

theorem keptMessages_roomBig : keptMessages roomBig = [bigMsg] := by
  unfold keptMessages roomBig
  rw [List.filter_cons]
  have h2 : (!bigMsg.isReaction && !bigMsg.isEditNote && !bigMsg.isCommentDeleted) = true := rfl
  rw [h2]
  rfl

/-- `bigMsg`'s body wraps to 65537 lines, above `u16::MAX`. -/
theorem roomBig_body_overflow : U16_MAX < (wrapBody bigMsg.message boxW10.width).length := by
  have h1 : bigMsg.message = String.mk (List.replicate 65536 '\n') := rfl
  have h2 : boxW10.width = 10 := rfl
  rw [h1, h2, wrapBody_newlines_length]
  norm_num [U16_MAX]

/-- C2: the claim (and the spec) demand that a wrapped line count beyond
the `u16` range be clamped or rejected as a LayoutError; the code instead
aborts through `expect("message too long")`.  Evaluated at the failing
input: one kept message whose body is 65536 newline characters, so its
body wraps to 65537 lines; the rebuild faults (`none`). -/
theorem overflow_aborts : update_messages boxW10 roomBig "t" "s" = none :=
  update_messages_overflow boxW10 roomBig "t" "s" bigMsg [] keptMessages_roomBig roomBig_body_overflow

/-- The specification rows of no messages. -/
theorem specRows_nil (w : Nat) (td : String) (hU : Bool) (lr : Int) (prev : Option String) :
    specRows w td hU lr prev [] = [] := rfl

/-- Unfolding `specRows` one message at a time. -/
theorem specRows_cons (w : Nat) (td : String) (hU : Bool) (lr : Int) (prev : Option String)
    (m : NCMessage) (rest : List NCMessage) :
    specRows w td hU lr prev (m :: rest)
      = messageBlock w td hU lr (decide (prev ≠ some m.dateStr)) m
        ++ specRows w td hU lr (some m.dateStr) rest := by
  simp [specRows, sepFlags]

/-- The loop of `update_messages`, which threads `last_date` through the
iteration, produces (when it does not fault) exactly the state-free
specification rows in which each message is compared with its
predecessor's date label. -/
theorem update_messages_loop_eq_spec (w : Nat) (td : String) (hU : Bool) (lr : Int) :
    ∀ (msgs : List NCMessage) (lastDate : String) (rows : List ChatRow),
    update_messages_loop w td hU lr lastDate msgs = some rows →
    rows = specRows w td hU lr (some lastDate) msgs := by
  intro msgs
  induction msgs with
  | nil =>
    intro lastDate rows h
    simp only [update_messages_loop, Option.some.injEq] at h
    rw [← h, specRows_nil]
  | cons m rest ih =>
    intro lastDate rows h
    simp only [update_messages_loop] at h
    split at h
    · rename_i hht
      split at h
      · cases hrec : update_messages_loop w td hU lr
            (if m.dateStr ≠ lastDate then m.dateStr else lastDate) rest with
        | none => rw [hrec] at h; simp at h
        | some tail =>
          rw [hrec] at h
          simp only [Option.some.injEq] at h
          have htail := ih _ tail hrec
          rw [specRows_cons, ← h, htail]
          by_cases hd : m.dateStr = lastDate
          · simp [messageBlock, rowHeightNat, hd, hht, List.append_assoc]
          · simp [messageBlock, rowHeightNat, hd, Ne.symm hd, hht, List.append_assoc]
      · simp at h
    · rename_i hht
      split at h
      · cases hrec : update_messages_loop w td hU lr
            (if m.dateStr ≠ lastDate then m.dateStr else lastDate) rest with
        | none => rw [hrec] at h; simp at h
        | some tail =>
          rw [hrec] at h
          simp only [Option.some.injEq] at h
          have htail := ih _ tail hrec
          rw [specRows_cons, ← h, htail]
          by_cases hd : m.dateStr = lastDate
          · simp [messageBlock, rowHeightNat, hd, hht, List.append_assoc]
          · simp [messageBlock, rowHeightNat, hd, Ne.symm hd, hht, List.append_assoc]
      · simp at h

/-- When no message's date label equals the sentinel, starting the
pairwise discipline at the sentinel is the same as starting fresh (the
first message is flagged either way). -/
theorem sepFlags_sentinel (sent : String) (msgs : List NCMessage)
    (h : ∀ m ∈ msgs, m.dateStr ≠ sent) :
    sepFlags (some sent) msgs = sepFlags none msgs := by
  cases msgs with
  | nil => rfl
  | cons m rest =>
    have h1 : m.dateStr ≠ sent := h m (List.mem_cons_self _ _)
    simp only [sepFlags]
    congr 1
    simp [Ne.symm h1]

/-- `sepLabels` distributes over append. -/
theorem sepLabels_append (a b : List ChatRow) :
    sepLabels (a ++ b) = sepLabels a ++ sepLabels b :=
  List.filterMap_append ..

/-- A block contributes its separator's label exactly when flagged. -/
theorem sepLabels_block (w : Nat) (td : String) (hU : Bool) (lr : Int) (flag : Bool)
    (m : NCMessage) :
    sepLabels (messageBlock w td hU lr flag m) = if flag then [m.dateStr] else [] := by
  unfold messageBlock sepLabels
  split_ifs <;> simp [sepLabel, List.filterMap_append, List.filterMap_cons]

/-- Successive separator labels are pairwise distinct, even when preceded
by the label `prev` the discipline starts from. -/
theorem chain_sepLabels (w : Nat) (td : String) (hU : Bool) (lr : Int) :
    ∀ (msgs : List NCMessage) (prev : String),
    List.Chain' (· ≠ ·) (prev :: sepLabels (specRows w td hU lr (some prev) msgs)) := by
  intro msgs
  induction msgs with
  | nil => intro prev; simp [specRows_nil, sepLabels]
  | cons m rest ih =>
    intro prev
    rw [specRows_cons, sepLabels_append, sepLabels_block]
    by_cases hd : m.dateStr = prev
    · simp only [hd, Option.some.injEq]
      have : (decide (some prev ≠ some prev) : Bool) = false := by simp
      rw [this, if_neg (by simp)]
      rw [List.nil_append]
      exact ih prev
    · have : (decide (some prev ≠ some m.dateStr) : Bool) = true := by simp [Ne.symm hd]
      rw [this, if_pos rfl, List.cons_append, List.nil_append]
      rw [List.chain'_cons]
      exact ⟨Ne.symm hd, ih m.dateStr⟩

/-- A block never breaks the separator-before-message discipline. -/
theorem sepsPrecede_append_block (w : Nat) (td : String) (hU : Bool) (lr : Int) (flag : Bool)
    (m : NCMessage) (l : List ChatRow) :
    sepsPrecedeMessages (messageBlock w td hU lr flag m ++ l) = sepsPrecedeMessages l := by
  unfold messageBlock
  split_ifs <;> simp [sepsPrecedeMessages, List.append_assoc, List.cons_append]

/-- Every separator in the specification rows immediately precedes a message row. -/
theorem sepsPrecede_specRows (w : Nat) (td : String) (hU : Bool) (lr : Int) :
    ∀ (msgs : List NCMessage) (prev : Option String),
    sepsPrecedeMessages (specRows w td hU lr prev msgs) = true := by
  intro msgs
  induction msgs with
  | nil => intro prev; rfl
  | cons m rest ih =>
    intro prev
    rw [specRows_cons, sepsPrecede_append_block]
    exact ih _

/-- A block holds one unread marker exactly when the room is unread and the message is the last-read one. -/
theorem countP_block (w : Nat) (td : String) (hU : Bool) (lr : Int) (flag : Bool)
    (m : NCMessage) :
    (messageBlock w td hU lr flag m).countP isUnreadMarkerB
      = if hU && (lr == m.id) then 1 else 0 := by
  unfold messageBlock
  split_ifs <;> simp [List.countP_append, List.countP_cons, isUnreadMarkerB]

/-- The number of unread markers equals the number of messages matching
the unread condition. -/
theorem countP_specRows (w : Nat) (td : String) (hU : Bool) (lr : Int) :
    ∀ (msgs : List NCMessage) (prev : Option String),
    (specRows w td hU lr prev msgs).countP isUnreadMarkerB
      = msgs.countP (fun m => hU && (lr == m.id)) := by
  intro msgs
  induction msgs with
  | nil => intro prev; rfl
  | cons m rest ih =>
    intro prev
    rw [specRows_cons, List.countP_append, countP_block, ih, List.countP_cons]
    cases h : (hU && (lr == m.id)) with
    | false => simp [h]
    | true => simp [h]; omega

/-- With pairwise-distinct message ids, at most one message matches the
last-read id. -/
theorem countP_id_le_one (lr : Int) (hU : Bool) : ∀ (msgs : List NCMessage),
    (msgs.map NCMessage.id).Nodup → msgs.countP (fun m => hU && (lr == m.id)) ≤ 1 := by
  intro msgs
  induction msgs with
  | nil => intro _; simp
  | cons m rest ih =>
    intro hnd
    rw [List.map_cons, List.nodup_cons] at hnd
    rw [List.countP_cons]
    by_cases hp : (hU && (lr == m.id)) = true
    · have h0 : rest.countP (fun m2 => hU && (lr == m2.id)) = 0 := by
        rw [List.countP_eq_zero]
        intro m2 hm2 hc
        simp only [Bool.and_eq_true, beq_iff_eq] at hp hc
        exact hnd.1 (by rw [← hp.2, hc.2]; exact List.mem_map_of_mem _ hm2)
      simp [hp, h0]
    · simp only [Bool.not_eq_true] at hp
      rw [hp]
      simpa using ih hnd.2

/-- When the room is unread and a message with the last-read id is kept,
its message row, its optional reaction row, and the unread marker occur
contiguously, in that order, inside the specification rows. -/
theorem marker_infix (w : Nat) (td : String) (lr : Int) :
    ∀ (msgs : List NCMessage) (prev : Option String) (m : NCMessage),
    m ∈ msgs → lr = m.id →
    List.IsInfix
      (ChatRow.messageRow m.timeStr (wrapName m.name) (wrapBody m.message w) (rowHeightNat w m)
        :: ((if m.hasReactions then [ChatRow.reactionRow m.reactionsStr] else [])
            ++ [ChatRow.unreadMarker]))
      (specRows w td true lr prev msgs) := by
  intro msgs
  induction msgs with
  | nil => intro prev m hm; simp at hm
  | cons a rest ih =>
    intro prev m hm hid
    rw [specRows_cons]
    rcases List.mem_cons.mp hm with h | h
    · subst h
      refine ⟨if decide (prev ≠ some m.dateStr)
          then [ChatRow.dateSeparator m.dateStr (m.dateStr == td)] else [],
        specRows w td true lr (some m.dateStr) rest, ?_⟩
      unfold messageBlock
      have hc : (true && (lr == m.id)) = true := by simp [hid]
      rw [hc, if_pos rfl]
    · rcases ih (some a.dateStr) m h hid with ⟨s, t2, hst⟩
      exact ⟨messageBlock w td true lr (decide (prev ≠ some a.dateStr)) a ++ s, t2,
        by rw [← hst]; simp [List.append_assoc]⟩

/-- C6: assuming no kept message's date label equals the sentinel (the
epoch-minimum formatted date, which the spec requires to differ from every
real date), the rebuilt rows are exactly the blocks of the pairwise
discipline — a separator flagged for the first message and at every change
of date label between consecutive kept messages, immediately preceding the
message's row — every separator is immediately followed by a message row,
and successive separator labels are pairwise distinct. -/
theorem date_separator_discipline (cb : ChatBox) (room : NCRoom) (todayStr sentinel : String)
    (cb1 : ChatBox)
    (hs : ∀ m ∈ keptMessages room, m.dateStr ≠ sentinel)
    (h : update_messages cb room todayStr sentinel = some cb1) :
    cb1.messages
        = specRows cb.width todayStr room.hasUnread room.lastRead none (keptMessages room)
      ∧ sepsPrecedeMessages cb1.messages = true
      ∧ List.Chain' (· ≠ ·) (sepLabels cb1.messages) := by
  have h1 := (update_messages_some cb room todayStr sentinel cb1 h).1
  have h2 := update_messages_loop_eq_spec cb.width todayStr room.hasUnread room.lastRead
    (keptMessages room) sentinel cb1.messages h1
  have h3 : specRows cb.width todayStr room.hasUnread room.lastRead (some sentinel)
        (keptMessages room)
      = specRows cb.width todayStr room.hasUnread room.lastRead none (keptMessages room) := by
    unfold specRows
    rw [sepFlags_sentinel sentinel _ hs]
  refine ⟨h2.trans h3, ?_, ?_⟩
  · rw [h2]
    exact sepsPrecede_specRows _ _ _ _ _ _
  · rw [h2]
    exact (List.chain'_cons'.mp
      (chain_sepLabels cb.width todayStr room.hasUnread room.lastRead
        (keptMessages room) sentinel)).2

/-- Witness for C6 at the concrete rebuild of `roomHit`. -/
theorem date_separator_discipline_witness :
    List.Chain' (· ≠ ·) (sepLabels cbHit.messages) :=
  (date_separator_discipline boxW10 roomHit "t" "s" cbHit (by decide) (by decide)).2.2

/-- C5 counterexample: the unread flag is set on `roomMiss`, but its
last-read id (5) matches no kept message, so the rebuilt rows contain no
unread marker — refuting "marker present iff has-unread". -/
theorem unread_marker_missing :
    roomMiss.hasUnread = true
      ∧ (update_messages boxW10 roomMiss "t" "s").map
          (fun c => c.messages.countP isUnreadMarkerB) = some 0 :=
  ⟨rfl, by decide⟩

/-- C5 amended: in a rebuilt row sequence the number of unread markers is
the number of kept messages matching the unread condition; with distinct
message ids there is at most one, a marker is present iff the room has
unread and some kept message carries the last-read id, and such a
message's row, its optional reaction row, and the marker are contiguous in
that order. -/
theorem unread_marker_placement (cb : ChatBox) (room : NCRoom) (todayStr sentinel : String)
    (cb1 : ChatBox)
    (hnd : (room.messages.map NCMessage.id).Nodup)
    (h : update_messages cb room todayStr sentinel = some cb1) :
    cb1.messages.countP isUnreadMarkerB
        = (keptMessages room).countP (fun m => room.hasUnread && (room.lastRead == m.id))
      ∧ cb1.messages.countP isUnreadMarkerB ≤ 1
      ∧ (cb1.messages.countP isUnreadMarkerB = 1
          ↔ room.hasUnread = true ∧ ∃ m ∈ keptMessages room, m.id = room.lastRead)
      ∧ (∀ m ∈ keptMessages room, room.hasUnread = true → m.id = room.lastRead →
          List.IsInfix
            (ChatRow.messageRow m.timeStr (wrapName m.name) (wrapBody m.message cb.width)
                (rowHeightNat cb.width m)
              :: ((if m.hasReactions then [ChatRow.reactionRow m.reactionsStr] else [])
                  ++ [ChatRow.unreadMarker]))
            cb1.messages) := by
  have h1 := (update_messages_some cb room todayStr sentinel cb1 h).1
  have h2 := update_messages_loop_eq_spec cb.width todayStr room.hasUnread room.lastRead
    (keptMessages room) sentinel cb1.messages h1
  have hknd : ((keptMessages room).map NCMessage.id).Nodup :=
    hnd.sublist ((List.filter_sublist _).map NCMessage.id)
  have hcount : cb1.messages.countP isUnreadMarkerB
      = (keptMessages room).countP (fun m => room.hasUnread && (room.lastRead == m.id)) := by
    rw [h2, countP_specRows]
  have hle1 : (keptMessages room).countP
      (fun m => room.hasUnread && (room.lastRead == m.id)) ≤ 1 :=
    countP_id_le_one room.lastRead room.hasUnread _ hknd
  refine ⟨hcount, by rw [hcount]; exact hle1, ?_, ?_⟩
  · constructor
    · intro hone
      have hpos : 0 < (keptMessages room).countP
          (fun m => room.hasUnread && (room.lastRead == m.id)) := by
        rw [← hcount]; omega
      rcases List.countP_pos_iff.mp hpos with ⟨m, hm, hpm⟩
      simp only [Bool.and_eq_true, beq_iff_eq] at hpm
      exact ⟨hpm.1, m, hm, hpm.2.symm⟩
    · rintro ⟨hHU, m, hm, hid⟩
      have hpos : 0 < (keptMessages room).countP
          (fun m => room.hasUnread && (room.lastRead == m.id)) :=
        List.countP_pos_iff.mpr ⟨m, hm, by simp [hHU, hid]⟩
      rw [hcount]
      omega
  · intro m hm hHU hid
    rw [h2, hHU]
    exact marker_infix cb.width todayStr room.lastRead (keptMessages room) (some sentinel)
      m hm hid.symm

/-- Witness for the C5 amended theorem at the concrete rebuild of `roomHit`. -/
theorem unread_marker_placement_witness :
    cbHit.messages.countP isUnreadMarkerB
      = (keptMessages roomHit).countP
          (fun m => roomHit.hasUnread && (roomHit.lastRead == m.id)) :=
  (unread_marker_placement boxW10 roomHit "t" "s" cbHit (by decide) (by decide)).1
